import Mathlib

/-!
Verification development for the live-reload development server
(src/main.rs, src/cli.rs).  The definitions below are a shallow
embedding of the source: strings are lists of characters, the
filesystem and the mime sniffer are oracles supplied as parameters,
and the concurrent reload subsystem is a labelled transition system
whose steps mirror the operations on the async_channel queue.
-/

/- ===================== Strings and HTML injection ===================== -/

/-- Fuel-indexed scan behind replaceAll.  One recursion step either
consumes a matched occurrence of pat (replacing it by to and continuing
after it) or moves one character forward, so fuel equal to the length
of the scanned list is always enough when pat is nonempty. -/
def replaceFuel (pat rep : List Char) : Nat → List Char → List Char
  | 0, s => s
  | fuel + 1, s =>
    match s with
    | [] => []
    | c :: rest =>
      if pat.isPrefixOf (c :: rest) then
        rep ++ replaceFuel pat rep fuel ((c :: rest).drop pat.length)
      else
        c :: replaceFuel pat rep fuel rest

/-- Embedding of Rust str::replace for a nonempty needle: every
leftmost, non-overlapping occurrence of pat in s is replaced by to
(main.rs line 152 calls it with the literal needle so pat is never
empty). -/
def replaceAll (pat rep s : List Char) : List Char :=
  replaceFuel pat rep s.length s

/-- Fuel-indexed scan behind countOccs, following the same recursion
pattern as replaceFuel. -/
def countFuel (pat : List Char) : Nat → List Char → Nat
  | 0, _ => 0
  | fuel + 1, s =>
    match s with
    | [] => 0
    | c :: rest =>
      if pat.isPrefixOf (c :: rest) then
        1 + countFuel pat fuel ((c :: rest).drop pat.length)
      else
        countFuel pat fuel rest

/-- Number of leftmost, non-overlapping occurrences of pat in s; the
counting discipline matches the replacement discipline of replaceAll. -/
def countOccs (pat s : List Char) : Nat :=
  countFuel pat s.length s

/-- The closing tag the server looks for in HTML documents
(main.rs line 153). -/
def bodyTag : List Char := "</body>".data

/-- Modelled from the spec: the content of extra/js.js, which is not
under src/.  The spec treats it as a fixed script snippet whose only
contract is: open a socket to /ws and reload the page on any message.
Its exact text is irrelevant to every theorem below (they quantify over
the snippet); this concrete value is used only in closed witnesses. -/
def reloadJs : List Char :=
  "new WebSocket(\x22/ws\x22).onmessage=()=>location.reload()".data

/-- The script block the server splices into HTML documents:
the snippet wrapped in a script element (main.rs lines 154-158 and
162-166). -/
def scriptBlock (js : List Char) : List Char :=
  "<script>".data ++ js ++ "</script>".data

/-- Embedding of the HTML transformation of serve_file (main.rs lines
150-167): replace every occurrence of the closing body tag by the
script block followed by the tag; if the length is unchanged (no
occurrence was found), append the script block at the end. -/
def injectHtml (js s : List Char) : List Char :=
  let s2 := replaceAll bodyTag (scriptBlock js ++ bodyTag) s
  if s.length = s2.length then s2 ++ scriptBlock js else s2

/- ===================== Path validation and file serving ===================== -/

/-- Embedding of std::path::Component for the request path: a drive or
volume prefix, the root-directory anchor, a current-directory segment,
a parent-directory segment, or a normal named segment. -/
inductive PathComp
  | prefixC
  | rootDir
  | curDir
  | parentDir
  | normal (name : List Char)
deriving DecidableEq

/-- Embedding of validate_path (main.rs lines 91-111): reject any
prefix, root-directory or parent-directory component; accept
current-directory and normal components. -/
def validate_path (p : List PathComp) : Bool :=
  p.all fun c =>
    match c with
    | PathComp.prefixC => false
    | PathComp.rootDir => false
    | PathComp.curDir => true
    | PathComp.parentDir => false
    | PathComp.normal _ => true

/-- Oracles for the external collaborators of serve_file: the
filesystem (tokio::fs) and the mime sniffer (mime_guess, a black box
per the spec).  mimeFirst returns the essence string of the first
guessed media type, readToString returns none on an io error, openOk
tells whether File::open succeeds. -/
structure Fs where
  isDir : List PathComp → Bool
  pathExists : List PathComp → Bool
  mimeFirst : List PathComp → Option (List Char)
  readToString : List PathComp → Option (List Char)
  openOk : List PathComp → Bool

/-- Body of an HTTP response in the embedding: full text (the HTML
branch), a byte stream of the named file (the passthrough branch), or
a fixed message (the not-found response). -/
inductive RespBody
  | text (s : List Char)
  | stream (file : List PathComp)
  | msg (s : List Char)
deriving DecidableEq

/-- The observable parts of an axum Response that the claims are
about: status code and the two headers the code touches, plus the
body. -/
structure Resp where
  status : Nat
  contentType : Option (List Char)
  cacheControl : Option (List Char)
  body : RespBody
deriving DecidableEq

/-- The cache-disabling header value (main.rs line 196). -/
def cacheCtl : List Char := "no-cache, no-store, must-revalidate".data

/-- Embedding of not_found (main.rs lines 113-115): a 404 with a plain
text body; axum gives a (StatusCode, str) response the text-plain
content type and no cache-control header. -/
def not_found : Resp :=
  { status := 404
    contentType := some ("text/plain; charset=utf-8".data)
    cacheControl := none
    body := RespBody.msg ("404: Page not found.".data) }

/-- The insertion of the cache-control header performed on every
successfully built response (main.rs lines 194-197). -/
def withCache (r : Resp) : Resp :=
  { r with cacheControl := some cacheCtl }

/-- Embedding of the non-HTML arm of serve_file (main.rs lines
177-191): open the file and stream it with no content-type header, or
degrade to not_found if the open fails. -/
def serveStream (fs : Fs) (full : List PathComp) : Resp :=
  if fs.openOk full then
    withCache
      { status := 200
        contentType := none
        cacheControl := none
        body := RespBody.stream full }
  else
    not_found

/-- Path resolution inside serve_file (main.rs lines 124-128): the
root components are chained with the request components; if the result
is a directory, index.html is appended. -/
def resolve (fs : Fs) (root req : List PathComp) : List PathComp :=
  let full0 := root ++ req
  if fs.isDir full0 then full0 ++ [PathComp.normal ("index.html".data)] else full0

/-- The html media-type essence string serve_file compares against
(main.rs line 137). -/
def htmlMime : List Char := "text/html".data

/-- Embedding of serve_file (main.rs lines 117-200).  The request path
is optional (the route for / passes none); an invalid or non-existing
path gives not_found; an html file is read, script-injected and served
with its content type; any other file (known or unknown media type) is
streamed; read and open failures degrade to not_found; both success
branches then receive the cache-control header. -/
def serve_file (fs : Fs) (root : List PathComp) (req : Option (List PathComp)) : Resp :=
  if validate_path (req.getD []) then
    if fs.pathExists (resolve fs root (req.getD [])) then
      match fs.mimeFirst (resolve fs root (req.getD [])) with
      | some m =>
        if m = htmlMime then
          match fs.readToString (resolve fs root (req.getD [])) with
          | some s =>
            withCache
              { status := 200
                contentType := some m
                cacheControl := none
                body := RespBody.text (injectHtml reloadJs s) }
          | none => not_found
        else serveStream fs (resolve fs root (req.getD []))
      | none => serveStream fs (resolve fs root (req.getD []))
    else not_found
  else not_found

/- ===================== Live-client session loop ===================== -/

/-- Embedding of async_channel::RecvError: a unit struct returned when
the channel is closed and empty. -/
inductive RecvError
  | closed
deriving DecidableEq

/-- Embedding of the websocket message type: the code only ever
constructs Binary (main.rs line 41), but the type has other
constructors. -/
inductive WsMessage
  | binary (payload : List Nat)
  | text (s : List Char)
  | close
deriving DecidableEq

/-- Messages that on_recv (main.rs lines 37-58) pushes to the peer for
a given channel receive result: a single empty binary message when a
notification arrived, nothing when the receive failed.  on_recv
returns unit in the source, so it gives its caller no termination
signal. -/
def on_recv_sends : Except RecvError Unit → List WsMessage
  | Except.ok _ => [WsMessage.binary []]
  | Except.error _ => []

/-- Which arm of the select in handle_socket (main.rs lines 62-69)
resolved: the channel arm carries the receive result and whether the
subsequent push to the peer succeeds; the socket arm fires on any peer
message, close or error. -/
inductive SelectArm
  | chanArm (v : Except RecvError Unit) (pushOk : Bool)
  | socketArm

/-- What the loop does after one arm resolves. -/
inductive LoopControl
  | continueLoop
  | exitLoop
deriving DecidableEq

/-- One iteration of the loop of handle_socket (main.rs lines 60-71):
the channel arm runs on_recv and then falls through to the next
iteration (on_recv returns unit, so the loop continues whatever the
receive result or the push outcome was); only the socket arm executes
the return that leaves handle_socket. -/
def handle_socket_iter : SelectArm → List WsMessage × LoopControl
  | SelectArm.chanArm v _ => (on_recv_sends v, LoopControl.continueLoop)
  | SelectArm.socketArm => ([], LoopControl.exitLoop)

/- ===================== Reload bus transition system ===================== -/

/-- Phase of one live-client session: draining the queue on connect
(main.rs lines 32-34), in the select loop (lines 60-71), or gone. -/
inductive SessPhase
  | draining
  | active
  | closed
deriving DecidableEq

/-- Global state of the reload subsystem with n sessions: the shared
async_channel queue (payloads are unit, so a count suffices; the
channel is never closed because AppState keeps a sender alive), each
session phase, and how many reload messages each session has
successfully pushed to its peer. -/
structure SysState (n : Nat) where
  queue : Nat
  phase : Fin n → SessPhase
  sent : Fin n → Nat

/-- Labels of the reload subsystem steps.  publish: handle_signal
sends on the channel (main.rs line 83).  drainRecv: a draining session
consumes one queued notification and discards it (line 33).
drainDone: the drain loop observes an empty queue and exits (line 32).
deliver: the channel arm of the select resolves for an active session,
consuming one queued notification (async_channel is a multi-consumer
queue: each message is received by exactly one receiver); pushOk tells
whether the subsequent websocket send succeeded; either way the
session stays active, per handle_socket_iter.  peerClose: the socket
arm resolves and the session leaves its loop (lines 66-69). -/
inductive BusLabel (n : Nat)
  | publish
  | drainRecv (i : Fin n)
  | drainDone (i : Fin n)
  | deliver (i : Fin n) (pushOk : Bool)
  | peerClose (i : Fin n)

/-- One step of the reload subsystem; none when the label is not
enabled in the given state. -/
def busStep {n : Nat} (s : SysState n) : BusLabel n → Option (SysState n)
  | BusLabel.publish => some { s with queue := s.queue + 1 }
  | BusLabel.drainRecv i =>
    if s.phase i = SessPhase.draining ∧ s.queue ≠ 0 then
      some { s with queue := s.queue - 1 }
    else none
  | BusLabel.drainDone i =>
    if s.phase i = SessPhase.draining ∧ s.queue = 0 then
      some { s with phase := Function.update s.phase i SessPhase.active }
    else none
  | BusLabel.deliver i pushOk =>
    if s.phase i = SessPhase.active ∧ s.queue ≠ 0 then
      some { s with
              queue := s.queue - 1
              sent := if pushOk then Function.update s.sent i (s.sent i + 1) else s.sent }
    else none
  | BusLabel.peerClose i =>
    if s.phase i = SessPhase.active then
      some { s with phase := Function.update s.phase i SessPhase.closed }
    else none

/-- Run a list of labels from a state; none if any label is not
enabled when reached. -/
def busRun {n : Nat} (s : SysState n) : List (BusLabel n) → Option (SysState n)
  | [] => some s
  | l :: ls =>
    match busStep s l with
    | some s2 => busRun s2 ls
    | none => none

/-- Number of publish labels in a trace. -/
def countPublish {n : Nat} : List (BusLabel n) → Nat
  | [] => 0
  | BusLabel.publish :: ls => countPublish ls + 1
  | _ :: ls => countPublish ls

/-- Number of deliveries to session i in a trace (successful push or
not: the notification was consumed by that session either way). -/
def countDeliver {n : Nat} (i : Fin n) : List (BusLabel n) → Nat
  | [] => 0
  | BusLabel.deliver j _ :: ls => (if j = i then 1 else 0) + countDeliver i ls
  | _ :: ls => countDeliver i ls

/-- Total number of reload messages successfully pushed by the two
sessions of a two-session system. -/
def sumSent (s : SysState 2) : Nat := s.sent 0 + s.sent 1

/-- Two attached sessions, both past their drain phase, nothing
pending and nothing sent: the state of the scenario in the spec. -/
def init2 : SysState 2 :=
  { queue := 0, phase := fun _ => SessPhase.active, sent := fun _ => 0 }

/- ===================== Concrete fixtures ===================== -/

/-- One publish and one delivery to session 0: a maximal schedule
after a single trigger with two attached sessions. -/
def c1Trace : List (BusLabel 2) := [BusLabel.publish, BusLabel.deliver 0 true]

/-- The state reached by c1Trace from init2. -/
def c1Final : SysState 2 := (busRun init2 c1Trace).getD init2

/-- Two sessions still in their drain phase with an empty queue. -/
def drain2 : SysState 2 :=
  { queue := 0, phase := fun _ => SessPhase.draining, sent := fun _ => 0 }

/-- The state reached when session 0 of drain2 finishes draining. -/
def drain2Done : SysState 2 := (busStep drain2 (BusLabel.drainDone 0)).getD drain2

/-- One publish followed by a delivery to session 1. -/
def c7Trace : List (BusLabel 2) := [BusLabel.publish, BusLabel.deliver 1 false]

/-- The state reached by c7Trace from init2. -/
def c7Final : SysState 2 := (busRun init2 c7Trace).getD init2

/-- An HTML document with two closing body tags. -/
def doc2 : List Char := "<html><body>Hi</body>x</body></html>".data

/-- Filesystem oracle that serves doc2 as an html file everywhere. -/
def fsHtml2 : Fs :=
  { isDir := fun _ => false
    pathExists := fun _ => true
    mimeFirst := fun _ => some ("text/html".data)
    readToString := fun _ => some doc2
    openOk := fun _ => true }

/-- Filesystem oracle where every path is an existing plain-text file
that opens fine. -/
def fsPlain : Fs :=
  { isDir := fun _ => false
    pathExists := fun _ => true
    mimeFirst := fun _ => some ("text/plain".data)
    readToString := fun _ => some []
    openOk := fun _ => true }

/-- Filesystem oracle where every path exists as an html file but
reading it fails (permission error, race-deleted file). -/
def fsReadErr : Fs :=
  { isDir := fun _ => false
    pathExists := fun _ => true
    mimeFirst := fun _ => some ("text/html".data)
    readToString := fun _ => none
    openOk := fun _ => true }

/-- Filesystem oracle where every path exists as a plain-text file but
opening it fails. -/
def fsOpenErr : Fs :=
  { isDir := fun _ => false
    pathExists := fun _ => true
    mimeFirst := fun _ => some ("text/plain".data)
    readToString := fun _ => none
    openOk := fun _ => false }

/- ===================== Lemmas about replaceAll and countOccs ===================== -/

theorem replaceFuel_nil (pat rep : List Char) (fuel : Nat) :
    replaceFuel pat rep fuel [] = [] := by
  cases fuel <;> rfl

theorem countFuel_nil (pat : List Char) (fuel : Nat) :
    countFuel pat fuel [] = 0 := by
  cases fuel <;> rfl

theorem replaceFuel_cons_pos (pat rep : List Char) (f : Nat) (c : Char) (rest : List Char)
    (h : pat.isPrefixOf (c :: rest) = true) :
    replaceFuel pat rep (f + 1) (c :: rest)
      = rep ++ replaceFuel pat rep f ((c :: rest).drop pat.length) := by
  simp [replaceFuel, h]

theorem replaceFuel_cons_neg (pat rep : List Char) (f : Nat) (c : Char) (rest : List Char)
    (h : ¬ pat.isPrefixOf (c :: rest) = true) :
    replaceFuel pat rep (f + 1) (c :: rest) = c :: replaceFuel pat rep f rest := by
  simp [replaceFuel, h]

theorem countFuel_cons_pos (pat : List Char) (f : Nat) (c : Char) (rest : List Char)
    (h : pat.isPrefixOf (c :: rest) = true) :
    countFuel pat (f + 1) (c :: rest)
      = 1 + countFuel pat f ((c :: rest).drop pat.length) := by
  simp [countFuel, h]

theorem countFuel_cons_neg (pat : List Char) (f : Nat) (c : Char) (rest : List Char)
    (h : ¬ pat.isPrefixOf (c :: rest) = true) :
    countFuel pat (f + 1) (c :: rest) = countFuel pat f rest := by
  simp [countFuel, h]

theorem replaceFuel_congr (pat rep : List Char) (hp : pat ≠ []) :
    ∀ (f1 : Nat) (s : List Char) (f2 : Nat), s.length ≤ f1 → s.length ≤ f2 →
      replaceFuel pat rep f1 s = replaceFuel pat rep f2 s := by
  intro f1
  induction f1 with
  | zero =>
    intro s f2 h1 _
    have hs : s = [] := List.length_eq_zero.mp (Nat.le_zero.mp h1)
    subst hs
    rw [replaceFuel_nil, replaceFuel_nil]
  | succ n ih =>
    intro s f2 h1 h2
    cases s with
    | nil => rw [replaceFuel_nil, replaceFuel_nil]
    | cons c rest =>
      cases f2 with
      | zero => simp at h2
      | succ g =>
        have hplen : 1 ≤ pat.length := List.length_pos.mpr hp
        simp only [List.length_cons] at h1 h2
        have hd : (List.drop pat.length (c :: rest)).length ≤ rest.length := by
          simp only [List.length_drop, List.length_cons]
          omega
        by_cases hpre : pat.isPrefixOf (c :: rest)
        · rw [replaceFuel_cons_pos pat rep n c rest hpre,
              replaceFuel_cons_pos pat rep g c rest hpre,
              ih _ g (le_trans hd (by omega)) (le_trans hd (by omega))]
        · rw [replaceFuel_cons_neg pat rep n c rest hpre,
              replaceFuel_cons_neg pat rep g c rest hpre,
              ih rest g (by omega) (by omega)]

theorem countFuel_congr (pat : List Char) (hp : pat ≠ []) :
    ∀ (f1 : Nat) (s : List Char) (f2 : Nat), s.length ≤ f1 → s.length ≤ f2 →
      countFuel pat f1 s = countFuel pat f2 s := by
  intro f1
  induction f1 with
  | zero =>
    intro s f2 h1 _
    have hs : s = [] := List.length_eq_zero.mp (Nat.le_zero.mp h1)
    subst hs
    rw [countFuel_nil, countFuel_nil]
  | succ n ih =>
    intro s f2 h1 h2
    cases s with
    | nil => rw [countFuel_nil, countFuel_nil]
    | cons c rest =>
      cases f2 with
      | zero => simp at h2
      | succ g =>
        have hplen : 1 ≤ pat.length := List.length_pos.mpr hp
        simp only [List.length_cons] at h1 h2
        have hd : (List.drop pat.length (c :: rest)).length ≤ rest.length := by
          simp only [List.length_drop, List.length_cons]
          omega
        by_cases hpre : pat.isPrefixOf (c :: rest)
        · rw [countFuel_cons_pos pat n c rest hpre,
              countFuel_cons_pos pat g c rest hpre,
              ih _ g (le_trans hd (by omega)) (le_trans hd (by omega))]
        · rw [countFuel_cons_neg pat n c rest hpre,
              countFuel_cons_neg pat g c rest hpre,
              ih rest g (by omega) (by omega)]

theorem replaceAll_nil (pat rep : List Char) : replaceAll pat rep [] = [] := rfl

theorem countOccs_nil (pat : List Char) : countOccs pat [] = 0 := rfl

theorem replaceAll_cons_neg (pat rep : List Char) (c : Char) (rest : List Char)
    (h : ¬ pat.isPrefixOf (c :: rest) = true) :
    replaceAll pat rep (c :: rest) = c :: replaceAll pat rep rest := by
  show replaceFuel pat rep (rest.length + 1) (c :: rest) = _
  rw [replaceFuel_cons_neg pat rep rest.length c rest h]
  rfl

theorem countOccs_cons_neg (pat : List Char) (c : Char) (rest : List Char)
    (h : ¬ pat.isPrefixOf (c :: rest) = true) :
    countOccs pat (c :: rest) = countOccs pat rest := by
  show countFuel pat (rest.length + 1) (c :: rest) = _
  rw [countFuel_cons_neg pat rest.length c rest h]
  rfl

theorem replaceAll_append (pat rep : List Char) (hp : pat ≠ []) (t : List Char) :
    replaceAll pat rep (pat ++ t) = rep ++ replaceAll pat rep t := by
  have hpre : pat.isPrefixOf (pat ++ t) = true :=
    List.isPrefixOf_iff_prefix.mpr (List.prefix_append _ t)
  have hdrop : (pat ++ t).drop pat.length = t := List.drop_left _ _
  obtain ⟨a, p2, hps⟩ : ∃ a p2, pat = a :: p2 := by
    cases pat with
    | nil => exact absurd rfl hp
    | cons a p2 => exact ⟨a, p2, rfl⟩
  have hform : pat ++ t = a :: (p2 ++ t) := by rw [hps]; rfl
  have hlen : (pat ++ t).length = (p2 ++ t).length + 1 := by rw [hform]; rfl
  show replaceFuel pat rep (pat ++ t).length (pat ++ t) = _
  rw [hlen, hform]
  rw [replaceFuel_cons_pos pat rep (p2 ++ t).length a (p2 ++ t) (by rw [← hform]; exact hpre)]
  rw [show (a :: (p2 ++ t)).drop pat.length = t by rw [← hform]; exact hdrop]
  have hle : t.length ≤ (p2 ++ t).length := by
    simp [List.length_append]
  rw [replaceFuel_congr pat rep hp (p2 ++ t).length t t.length hle (le_refl _)]
  rfl

theorem countOccs_append (pat : List Char) (hp : pat ≠ []) (t : List Char) :
    countOccs pat (pat ++ t) = 1 + countOccs pat t := by
  have hpre : pat.isPrefixOf (pat ++ t) = true :=
    List.isPrefixOf_iff_prefix.mpr (List.prefix_append _ t)
  have hdrop : (pat ++ t).drop pat.length = t := List.drop_left _ _
  obtain ⟨a, p2, hps⟩ : ∃ a p2, pat = a :: p2 := by
    cases pat with
    | nil => exact absurd rfl hp
    | cons a p2 => exact ⟨a, p2, rfl⟩
  have hform : pat ++ t = a :: (p2 ++ t) := by rw [hps]; rfl
  have hlen : (pat ++ t).length = (p2 ++ t).length + 1 := by rw [hform]; rfl
  show countFuel pat (pat ++ t).length (pat ++ t) = _
  rw [hlen, hform]
  rw [countFuel_cons_pos pat (p2 ++ t).length a (p2 ++ t) (by rw [← hform]; exact hpre)]
  rw [show (a :: (p2 ++ t)).drop pat.length = t by rw [← hform]; exact hdrop]
  have hle : t.length ≤ (p2 ++ t).length := by
    simp [List.length_append]
  rw [countFuel_congr pat hp (p2 ++ t).length t t.length hle (le_refl _)]
  rfl

theorem replaceAll_of_countOccs_zero_aux (pat rep : List Char) (hp : pat ≠ []) :
    ∀ (n : Nat) (s : List Char), s.length ≤ n → countOccs pat s = 0 →
      replaceAll pat rep s = s := by
  intro n
  induction n with
  | zero =>
    intro s hs _
    have hnil : s = [] := List.length_eq_zero.mp (Nat.le_zero.mp hs)
    subst hnil
    rfl
  | succ n ih =>
    intro s hs h
    cases s with
    | nil => rfl
    | cons c rest =>
      have hplen : 1 ≤ pat.length := List.length_pos.mpr hp
      by_cases hpre : pat.isPrefixOf (c :: rest)
      · obtain ⟨t, ht⟩ := List.isPrefixOf_iff_prefix.mp hpre
        rw [← ht, countOccs_append pat hp t] at h
        omega
      · rw [countOccs_cons_neg pat c rest hpre] at h
        rw [replaceAll_cons_neg pat rep c rest hpre]
        simp only [List.length_cons] at hs
        rw [ih rest (by omega) h]

/-- When no occurrence remains, replacement is the identity. -/
theorem replaceAll_of_countOccs_zero (pat rep : List Char) (hp : pat ≠ [])
    (s : List Char) (h : countOccs pat s = 0) : replaceAll pat rep s = s :=
  replaceAll_of_countOccs_zero_aux pat rep hp s.length s (le_refl _) h

theorem length_replaceAll_aux (pat blk : List Char) (hp : pat ≠ []) :
    ∀ (n : Nat) (s : List Char), s.length ≤ n →
      (replaceAll pat (blk ++ pat) s).length
        = s.length + countOccs pat s * blk.length := by
  intro n
  induction n with
  | zero =>
    intro s hs
    have hnil : s = [] := List.length_eq_zero.mp (Nat.le_zero.mp hs)
    subst hnil
    simp [replaceAll_nil, countOccs_nil]
  | succ n ih =>
    intro s hs
    cases s with
    | nil => simp [replaceAll_nil, countOccs_nil]
    | cons c rest =>
      have hplen : 1 ≤ pat.length := List.length_pos.mpr hp
      by_cases hpre : pat.isPrefixOf (c :: rest)
      · obtain ⟨t, ht⟩ := List.isPrefixOf_iff_prefix.mp hpre
        rw [← ht]
        rw [replaceAll_append pat (blk ++ pat) hp t, countOccs_append pat hp t]
        have hlt : t.length ≤ n := by
          have : (pat ++ t).length = (c :: rest).length := by rw [ht]
          simp only [List.length_append, List.length_cons] at this hs ⊢
          omega
        rw [List.length_append, List.length_append, List.length_append,
            ih t hlt, Nat.add_mul, Nat.one_mul]
        ring
      · rw [replaceAll_cons_neg pat (blk ++ pat) c rest hpre,
            countOccs_cons_neg pat c rest hpre]
        simp only [List.length_cons] at hs ⊢
        rw [ih rest (by omega)]
        omega

/-- Replacing each occurrence of pat by blk followed by pat grows the
length by the length of blk once per occurrence. -/
theorem length_replaceAll (pat blk : List Char) (hp : pat ≠ []) (s : List Char) :
    (replaceAll pat (blk ++ pat) s).length
      = s.length + countOccs pat s * blk.length :=
  length_replaceAll_aux pat blk hp s.length s (le_refl _)

theorem countOccs_one_decomp_aux (pat rep : List Char) (hp : pat ≠ []) :
    ∀ (n : Nat) (s : List Char), s.length ≤ n → countOccs pat s = 1 →
      ∃ pre suf, s = pre ++ pat ++ suf ∧ countOccs pat suf = 0 ∧
        replaceAll pat rep s = pre ++ rep ++ suf := by
  intro n
  induction n with
  | zero =>
    intro s hs h
    have hnil : s = [] := List.length_eq_zero.mp (Nat.le_zero.mp hs)
    subst hnil
    simp [countOccs_nil] at h
  | succ n ih =>
    intro s hs h
    cases s with
    | nil => simp [countOccs_nil] at h
    | cons c rest =>
      have hplen : 1 ≤ pat.length := List.length_pos.mpr hp
      by_cases hpre : pat.isPrefixOf (c :: rest)
      · obtain ⟨t, ht⟩ := List.isPrefixOf_iff_prefix.mp hpre
        rw [← ht, countOccs_append pat hp t] at h
        have h0 : countOccs pat t = 0 := by omega
        refine ⟨[], t, ?_, h0, ?_⟩
        · rw [← ht]
          rfl
        · rw [← ht, replaceAll_append pat rep hp t,
              replaceAll_of_countOccs_zero pat rep hp t h0]
          rfl
      · rw [countOccs_cons_neg pat c rest hpre] at h
        simp only [List.length_cons] at hs
        obtain ⟨pre, suf, hsplit, hsuf, hrep⟩ := ih rest (by omega) h
        refine ⟨c :: pre, suf, ?_, hsuf, ?_⟩
        · rw [show (c :: pre) ++ pat ++ suf = c :: (pre ++ pat ++ suf) by simp, ← hsplit]
        · rw [replaceAll_cons_neg pat rep c rest hpre, hrep]
          rfl

/-- A list with exactly one occurrence of pat splits around that
occurrence, and replacement rewrites exactly that occurrence. -/
theorem countOccs_one_decomp (pat rep : List Char) (hp : pat ≠ [])
    (s : List Char) (h : countOccs pat s = 1) :
    ∃ pre suf, s = pre ++ pat ++ suf ∧ countOccs pat suf = 0 ∧
      replaceAll pat rep s = pre ++ rep ++ suf :=
  countOccs_one_decomp_aux pat rep hp s.length s (le_refl _) h

theorem scriptBlock_length_pos (js : List Char) : 1 ≤ (scriptBlock js).length := by
  have h8 : ("<script>".data).length = 8 := rfl
  simp [scriptBlock, List.length_append, h8]

/-- C3 (amended): the served HTML body does not contain the script
block exactly once in general: it carries one injected block per
occurrence of the closing body tag, and exactly one appended block
when there is none, so its length grows by exactly
max 1 (number of occurrences) script blocks. -/
theorem C3_injection_count (js s : List Char) :
    (injectHtml js s).length
      = s.length + max 1 (countOccs bodyTag s) * (scriptBlock js).length := by
  have hp : bodyTag ≠ [] := by decide
  have hlen := length_replaceAll bodyTag (scriptBlock js) hp s
  have hblk : 1 ≤ (scriptBlock js).length := scriptBlock_length_pos js
  unfold injectHtml
  cases h : countOccs bodyTag s with
  | zero =>
    rw [replaceAll_of_countOccs_zero bodyTag _ hp s h, if_pos rfl]
    simp [List.length_append]
  | succ k =>
    rw [h] at hlen
    have hone : 1 * 1 ≤ (k + 1) * (scriptBlock js).length :=
      Nat.mul_le_mul (by omega) hblk
    have hlt : s.length < (replaceAll bodyTag (scriptBlock js ++ bodyTag) s).length := by
      rw [hlen]
      omega
    rw [if_neg (by omega), hlen]
    have hmax : max 1 (k + 1) = k + 1 := by omega
    rw [hmax]

/-- C6: an HTML document with exactly one closing body tag is served
as the original with the script block inserted immediately before that
tag and every other character unchanged; a document with none is
served as the original with the script block appended at the end. -/
theorem C6_injection_placement (js s : List Char) :
    (countOccs bodyTag s = 1 →
      ∃ pre suf, s = pre ++ bodyTag ++ suf ∧
        injectHtml js s = pre ++ scriptBlock js ++ bodyTag ++ suf) ∧
    (countOccs bodyTag s = 0 → injectHtml js s = s ++ scriptBlock js) := by
  have hp : bodyTag ≠ [] := by decide
  constructor
  · intro h1
    obtain ⟨pre, suf, hsplit, hsuf, hrep⟩ :=
      countOccs_one_decomp bodyTag (scriptBlock js ++ bodyTag) hp s h1
    refine ⟨pre, suf, hsplit, ?_⟩
    have hlen := length_replaceAll bodyTag (scriptBlock js) hp s
    rw [h1, Nat.one_mul] at hlen
    have hblk : 1 ≤ (scriptBlock js).length := scriptBlock_length_pos js
    unfold injectHtml
    rw [if_neg (by omega), hrep]
    simp [List.append_assoc]
  · intro h0
    unfold injectHtml
    rw [replaceAll_of_countOccs_zero bodyTag _ hp s h0, if_pos rfl]

/-- C6 witness: concrete one-tag and zero-tag documents. -/
theorem C6_witness :
    (∃ pre suf, "<body>Hi</body>".data = pre ++ bodyTag ++ suf ∧
        injectHtml reloadJs ("<body>Hi</body>".data)
          = pre ++ scriptBlock reloadJs ++ bodyTag ++ suf) ∧
    injectHtml reloadJs ("<p>Hi</p>".data) = "<p>Hi</p>".data ++ scriptBlock reloadJs :=
  ⟨(C6_injection_placement reloadJs ("<body>Hi</body>".data)).1 (by decide),
   (C6_injection_placement reloadJs ("<p>Hi</p>".data)).2 (by decide)⟩

set_option maxRecDepth 20000 in
/-- C3 counterexample: a served HTML document with two closing body
tags carries the script block twice, not exactly once. -/
theorem C3_counterexample :
    (serve_file fsHtml2 [] (some [PathComp.normal ("index.html".data)])).body
      = RespBody.text (injectHtml reloadJs doc2) ∧
    countOccs bodyTag doc2 = 2 ∧
    countOccs (scriptBlock reloadJs) (injectHtml reloadJs doc2) = 2 := by
  refine ⟨rfl, by decide, by decide⟩

/- ===================== Lemmas about serve_file ===================== -/

/-- Every response of the content endpoint is either the not-found
response or a 200 carrying the cache-control header. -/
theorem serve_file_cases (fs : Fs) (root : List PathComp) (req : Option (List PathComp)) :
    serve_file fs root req = not_found ∨
      ((serve_file fs root req).status = 200 ∧
        (serve_file fs root req).cacheControl = some cacheCtl) := by
  unfold serve_file serveStream
  repeat' split
  all_goals first
  | exact Or.inl rfl
  | exact Or.inr ⟨rfl, rfl⟩

/-- C8: every file-serving (200) response of the content endpoint,
HTML or not, carries the cache-disabling header. -/
theorem C8_cache_control (fs : Fs) (root : List PathComp) (req : Option (List PathComp))
    (h : (serve_file fs root req).status = 200) :
    (serve_file fs root req).cacheControl = some cacheCtl := by
  rcases serve_file_cases fs root req with hnf | ⟨_, hcc⟩
  · rw [hnf] at h
    exact absurd h (by decide)
  · exact hcc

/-- C8 witness: a concrete streamed file response carries the
header. -/
theorem C8_witness :
    (serve_file fsPlain [] (some [PathComp.normal ("style.css".data)])).cacheControl
      = some cacheCtl :=
  C8_cache_control fsPlain [] (some [PathComp.normal ("style.css".data)]) (by decide)

/-- C9: a read failure on an existing html file and an open failure on
an existing non-html file both produce exactly the not-found response,
and every response of the endpoint is either that response or a 200 —
never a 5xx, and failures are indistinguishable from a missing
file. -/
theorem C9_read_failure_uniform :
    (∀ (fs : Fs) (root p : List PathComp), validate_path p = true →
      fs.pathExists (resolve fs root p) = true →
      fs.mimeFirst (resolve fs root p) = some htmlMime →
      fs.readToString (resolve fs root p) = none →
      serve_file fs root (some p) = not_found) ∧
    (∀ (fs : Fs) (root p : List PathComp), validate_path p = true →
      fs.pathExists (resolve fs root p) = true →
      (∀ m, fs.mimeFirst (resolve fs root p) = some m → m ≠ htmlMime) →
      fs.openOk (resolve fs root p) = false →
      serve_file fs root (some p) = not_found) ∧
    (∀ (fs : Fs) (root : List PathComp) (req : Option (List PathComp)),
      serve_file fs root req = not_found ∨ (serve_file fs root req).status = 200) := by
  refine ⟨?_, ?_, ?_⟩
  · intro fs root p hval hex hm hread
    simp [serve_file, hval, hex, hm, hread]
  · intro fs root p hval hex hne hopen
    cases hm : fs.mimeFirst (resolve fs root p) with
    | none => simp [serve_file, hval, hex, hm, serveStream, hopen]
    | some m =>
      have hmn := hne m hm
      simp [serve_file, hval, hex, hm, hmn, serveStream, hopen]
  · intro fs root req
    rcases serve_file_cases fs root req with h | ⟨h200, _⟩
    exacts [Or.inl h, Or.inr h200]

/-- C9 witness: concrete read and open failures on existing files. -/
theorem C9_witness :
    serve_file fsReadErr [] (some [PathComp.normal ("index.html".data)]) = not_found ∧
    serve_file fsOpenErr [] (some [PathComp.normal ("a.txt".data)]) = not_found :=
  ⟨C9_read_failure_uniform.1 fsReadErr [] _ (by decide) rfl rfl rfl,
   C9_read_failure_uniform.2.1 fsOpenErr [] _ (by decide) rfl
     (by
       intro m hm
       simp [fsOpenErr] at hm
       subst hm
       decide)
     rfl⟩

/-- C4 (amended): only HTML file responses carry a Content-Type header
(the inferred html essence); non-HTML files, inferable or not, are
served 200 with no Content-Type header at all. -/
theorem C4_content_type_only_html :
    (∀ (fs : Fs) (root p : List PathComp) (s : List Char), validate_path p = true →
      fs.pathExists (resolve fs root p) = true →
      fs.mimeFirst (resolve fs root p) = some htmlMime →
      fs.readToString (resolve fs root p) = some s →
      (serve_file fs root (some p)).contentType = some htmlMime) ∧
    (∀ (fs : Fs) (root p : List PathComp), validate_path p = true →
      fs.pathExists (resolve fs root p) = true →
      (∀ m, fs.mimeFirst (resolve fs root p) = some m → m ≠ htmlMime) →
      fs.openOk (resolve fs root p) = true →
      (serve_file fs root (some p)).status = 200 ∧
      (serve_file fs root (some p)).contentType = none) := by
  constructor
  · intro fs root p s hval hex hm hread
    simp [serve_file, hval, hex, hm, hread, withCache]
  · intro fs root p hval hex hne hopen
    cases hm : fs.mimeFirst (resolve fs root p) with
    | none =>
      constructor <;> simp [serve_file, hval, hex, hm, serveStream, hopen, withCache]
    | some m =>
      have hmn := hne m hm
      constructor <;> simp [serve_file, hval, hex, hm, hmn, serveStream, hopen, withCache]

/-- C4 counterexample: an existing plain-text file is served 200 with
no Content-Type header, although its media type was inferable. -/
theorem C4_counterexample :
    (serve_file fsPlain [] (some [PathComp.normal ("notes.txt".data)])).status = 200 ∧
    (serve_file fsPlain [] (some [PathComp.normal ("notes.txt".data)])).contentType = none :=
  ⟨by decide, by decide⟩

/-- C4 witness: concrete html and non-html serves. -/
theorem C4_witness :
    (serve_file fsHtml2 [] (some [PathComp.normal ("page.html".data)])).contentType
      = some htmlMime ∧
    ((serve_file fsPlain [] (some [PathComp.normal ("a.css".data)])).status = 200 ∧
      (serve_file fsPlain [] (some [PathComp.normal ("a.css".data)])).contentType = none) :=
  ⟨C4_content_type_only_html.1 fsHtml2 [] _ doc2 (by decide) rfl rfl rfl,
   C4_content_type_only_html.2 fsPlain [] _ (by decide) rfl
     (by
       intro m hm
       simp [fsPlain] at hm
       subst hm
       decide)
     rfl⟩

/-- C5: request paths containing a parent-directory segment, a
root-directory anchor or a drive prefix are answered not found
whatever the filesystem holds at the resolved location; paths of only
normal and current-directory segments pass validation. -/
theorem C5_path_rejection :
    (∀ (fs : Fs) (root p : List PathComp),
        (PathComp.parentDir ∈ p ∨ PathComp.rootDir ∈ p ∨ PathComp.prefixC ∈ p) →
        serve_file fs root (some p) = not_found) ∧
    (∀ p : List PathComp,
        (∀ c ∈ p, c = PathComp.curDir ∨ ∃ nm, c = PathComp.normal nm) →
        validate_path p = true) := by
  constructor
  · intro fs root p hbad
    have hval : validate_path p = false := by
      apply Bool.eq_false_iff.mpr
      intro hall
      rcases hbad with h | h | h
      all_goals {
        have := List.all_eq_true.mp hall _ h
        simp at this
      }
    simp [serve_file, hval]
  · intro p hgood
    apply List.all_eq_true.mpr
    intro c hc
    rcases hgood c hc with rfl | ⟨nm, rfl⟩
    · rfl
    · rfl

/-- C5 witness: a traversal path is rejected with any filesystem, and
a path of current-directory and normal segments validates. -/
theorem C5_witness :
    serve_file fsPlain [] (some [PathComp.normal ("a".data), PathComp.parentDir])
      = not_found ∧
    validate_path [PathComp.curDir, PathComp.normal ("a".data)] = true :=
  ⟨C5_path_rejection.1 fsPlain [] _ (Or.inl (by decide)),
   C5_path_rejection.2 _ (by
     intro c hc
     simp at hc
     rcases hc with rfl | rfl
     · exact Or.inl rfl
     · exact Or.inr ⟨_, rfl⟩)⟩

/- ===================== Session loop and reload bus theorems ===================== -/

/-- C2 (code evaluation): in the ACTIVE loop, a receive error from the
channel and a failed push to the peer both leave the loop running —
on_recv returns unit and the select loop falls through to the next
iteration; only the socket arm leaves handle_socket. -/
theorem C2_failure_keeps_looping :
    handle_socket_iter (SelectArm.chanArm (Except.error RecvError.closed) true)
      = ([], LoopControl.continueLoop) ∧
    handle_socket_iter (SelectArm.chanArm (Except.ok ()) false)
      = ([WsMessage.binary []], LoopControl.continueLoop) ∧
    handle_socket_iter SelectArm.socketArm = ([], LoopControl.exitLoop) :=
  ⟨rfl, rfl, rfl⟩

/-- C10: the only message a session ever pushes to its peer is a
binary websocket message with an empty payload — one per received
notification, none on a receive error. -/
theorem C10_reload_message :
    on_recv_sends (Except.ok ()) = [WsMessage.binary []] ∧
    (∀ e : RecvError, on_recv_sends (Except.error e) = []) :=
  ⟨rfl, fun _ => rfl⟩

theorem sum2_update (f : Fin 2 → Nat) (i : Fin 2) :
    Function.update f i (f i + 1) 0 + Function.update f i (f i + 1) 1
      = (f 0 + f 1) + 1 := by
  fin_cases i <;> simp [Function.update] <;> omega

/-- Conservation law of the two-session system: the pending queue plus
the total number of successful reload pushes grows only by publishes. -/
theorem busRun_sent_bound :
    ∀ (ls : List (BusLabel 2)) (s s2 : SysState 2),
      busRun s ls = some s2 →
      s2.queue + sumSent s2 ≤ s.queue + sumSent s + countPublish ls := by
  intro ls
  induction ls with
  | nil =>
    intro s s2 h
    simp only [busRun, Option.some.injEq] at h
    subst h
    simp [countPublish]
  | cons l ls ih =>
    intro s s2 h
    cases hl : busStep s l with
    | none =>
      simp only [busRun, hl] at h
      exact Option.noConfusion h
    | some s1 =>
      simp only [busRun, hl] at h
      have hb := ih s1 s2 h
      cases l with
      | publish =>
        simp only [busStep, Option.some.injEq] at hl
        subst hl
        simp only [sumSent, countPublish] at hb ⊢
        omega
      | drainRecv i =>
        simp only [busStep] at hl
        split at hl
        case isTrue hc =>
          simp only [Option.some.injEq] at hl
          subst hl
          simp only [sumSent, countPublish] at hb ⊢
          omega
        case isFalse => exact absurd hl (by simp)
      | drainDone i =>
        simp only [busStep] at hl
        split at hl
        case isTrue hc =>
          simp only [Option.some.injEq] at hl
          subst hl
          simp only [sumSent, countPublish] at hb ⊢
          omega
        case isFalse => exact absurd hl (by simp)
      | deliver i ok =>
        simp only [busStep] at hl
        split at hl
        case isTrue hc =>
          simp only [Option.some.injEq] at hl
          subst hl
          have hq : s.queue ≠ 0 := hc.2
          have hupd := sum2_update s.sent i
          cases ok with
          | true =>
            simp only [sumSent, countPublish] at hb ⊢
            simp at hb
            omega
          | false =>
            simp only [sumSent, countPublish] at hb ⊢
            simp at hb
            omega
        case isFalse => exact absurd hl (by simp)
      | peerClose i =>
        simp only [busStep] at hl
        split at hl
        case isTrue hc =>
          simp only [Option.some.injEq] at hl
          subst hl
          simp only [sumSent, countPublish] at hb ⊢
          omega
        case isFalse => exact absurd hl (by simp)

/-- Deliveries to one session during a trace are bounded by the
pending queue at its start plus the publishes of the trace. -/
theorem busRun_deliver_bound {n : Nat} (i : Fin n) :
    ∀ (ls : List (BusLabel n)) (s s2 : SysState n),
      busRun s ls = some s2 →
      countDeliver i ls ≤ s.queue + countPublish ls := by
  intro ls
  induction ls with
  | nil =>
    intro s s2 _
    simp [countDeliver, countPublish]
  | cons l ls ih =>
    intro s s2 h
    cases hl : busStep s l with
    | none =>
      simp only [busRun, hl] at h
      exact Option.noConfusion h
    | some s1 =>
      simp only [busRun, hl] at h
      have hb := ih s1 s2 h
      cases l with
      | publish =>
        simp only [busStep, Option.some.injEq] at hl
        subst hl
        simp only [countDeliver, countPublish] at hb ⊢
        omega
      | drainRecv j =>
        simp only [busStep] at hl
        split at hl
        case isTrue hc =>
          simp only [Option.some.injEq] at hl
          subst hl
          simp only [countDeliver, countPublish] at hb ⊢
          omega
        case isFalse => exact absurd hl (by simp)
      | drainDone j =>
        simp only [busStep] at hl
        split at hl
        case isTrue hc =>
          simp only [Option.some.injEq] at hl
          subst hl
          simp only [countDeliver, countPublish] at hb ⊢
          omega
        case isFalse => exact absurd hl (by simp)
      | deliver j ok =>
        simp only [busStep] at hl
        split at hl
        case isTrue hc =>
          simp only [Option.some.injEq] at hl
          subst hl
          have hq : s.queue ≠ 0 := hc.2
          simp only [countDeliver, countPublish] at hb ⊢
          by_cases hji : j = i
          · simp [hji]
            omega
          · simp [hji]
            omega
        case isFalse => exact absurd hl (by simp)
      | peerClose j =>
        simp only [busStep] at hl
        split at hl
        case isTrue hc =>
          simp only [Option.some.injEq] at hl
          subst hl
          simp only [countDeliver, countPublish] at hb ⊢
          omega
        case isFalse => exact absurd hl (by simp)

/-- C1 (code evaluation): with two attached sessions past their drain
and a single publish, no schedule lets both sessions push a reload
message — the channel is a multi-consumer queue that hands each
notification to exactly one receiver, so the sessions cannot both
observe it. -/
theorem C1_single_consumer (ls : List (BusLabel 2)) (s2 : SysState 2)
    (hpub : countPublish ls ≤ 1) (hrun : busRun init2 ls = some s2) :
    ¬ (1 ≤ s2.sent 0 ∧ 1 ≤ s2.sent 1) := by
  rintro ⟨h0, h1⟩
  have hb := busRun_sent_bound ls init2 s2 hrun
  simp only [init2, sumSent] at hb
  omega

/-- C1 witness: the schedule that publishes once and delivers to
session 0 leaves the two sessions with at most one reload between
them. -/
theorem C1_witness : ¬ (1 ≤ c1Final.sent 0 ∧ 1 ≤ c1Final.sent 1) :=
  C1_single_consumer c1Trace c1Final (by decide) rfl

/-- C7: a session leaves its drain phase only once the queue is
empty; a draining session never delivers a reload; and from any
empty-queue state, deliveries to a session during a subsequent trace
never exceed the publishes of the trace — a notification published
strictly before the drain completed is never delivered to that
session. -/
theorem C7_drain_discards (n : Nat) :
    (∀ (s : SysState n) (i : Fin n) (s2 : SysState n),
        busStep s (BusLabel.drainDone i) = some s2 → s.queue = 0) ∧
    (∀ (s : SysState n) (i : Fin n) (ok : Bool),
        s.phase i = SessPhase.draining →
        busStep s (BusLabel.deliver i ok) = none) ∧
    (∀ (s : SysState n) (ls : List (BusLabel n)) (s2 : SysState n) (i : Fin n),
        s.queue = 0 → busRun s ls = some s2 →
        countDeliver i ls ≤ countPublish ls) := by
  refine ⟨?_, ?_, ?_⟩
  · intro s i s2 h
    simp only [busStep] at h
    split at h
    case isTrue hc => exact hc.2
    case isFalse => exact absurd h (by simp)
  · intro s i ok hdr
    have hne : ¬ (s.phase i = SessPhase.active ∧ s.queue ≠ 0) := by
      rintro ⟨ha, _⟩
      rw [hdr] at ha
      exact absurd ha (by decide)
    simp only [busStep, if_neg hne]
  · intro s ls s2 i hq hrun
    have hb := busRun_deliver_bound i ls s s2 hrun
    omega

/-- C7 witness: a two-session system whose sessions are draining with
an empty queue, and a concrete post-drain trace. -/
theorem C7_witness :
    drain2.queue = 0 ∧
    busStep drain2 (BusLabel.deliver 0 true) = none ∧
    countDeliver (1 : Fin 2) c7Trace ≤ countPublish c7Trace :=
  ⟨(C7_drain_discards 2).1 drain2 0 drain2Done rfl,
   (C7_drain_discards 2).2.1 drain2 0 true rfl,
   (C7_drain_discards 2).2.2 init2 c7Trace c7Final 1 rfl rfl⟩
